import Mathlib

/-!
Shallow embedding of the immigration ETL pipeline (`etl.py`) together with
proofs about its parsing, cleaning, joining and quality-gate logic.

Conventions of the embedding:

* Strings are modelled as `List Char`.
* Calendar dates are modelled by their proleptic Gregorian ordinal (days
  counted from 0001-01-01, which has ordinal 1).  This is exactly the
  internal representation of Python `datetime.date`: two dates are equal
  iff their ordinals are equal, `date(1960, 1, 1) + timedelta(d)` is
  ordinal addition, and `isoformat` renders a date injectively, so
  equality of the rendered strings agrees with equality of ordinals.
* Relations are lists of rows (row order is irrelevant to every claim;
  statements are phrased via membership and counting).
* Fallible row-level UDFs return `Except`; a raised exception inside a
  Spark UDF aborts the whole job, so applying a cleaner to a relation
  propagates the first error.
-/

namespace Etl

/-- Python `str.split(sep)` for a one-character separator: splits at every
occurrence of the separator and keeps empty segments, so the result is
always a nonempty list of segments. -/
def pySplit (sep : Char) : List Char → List (List Char)
  | [] => [[]]
  | c :: rest =>
    if c = sep then [] :: pySplit sep rest
    else
      match pySplit sep rest with
      | [] => [[c]]
      | seg :: segs => (c :: seg) :: segs

/-- Characters removed by Python `str.strip()` with no argument. -/
def pyWhitespace (c : Char) : Bool :=
  c = ' ' || c = '\t' || c = '\n' || c = '\r' || c = Char.ofNat 11 || c = Char.ofNat 12

/-- Drop characters satisfying `p` from the right end of a string. -/
def dropRightWhile (p : Char → Bool) (l : List Char) : List Char :=
  (l.reverse.dropWhile p).reverse

/-- Python `str.strip` restricted to a character predicate: removes leading
and trailing characters satisfying `p`. -/
def pyStrip (p : Char → Bool) (l : List Char) : List Char :=
  dropRightWhile p (l.dropWhile p)

/-- The apostrophe character (the quote character stripped by the label
parser in the source). -/
def quoteChar : Char := Char.ofNat 39

/-- Lowercasing of a string, as used by the SQL `lower` function on the
ASCII city names of this pipeline. -/
def lowerStr (l : List Char) : List Char := l.map Char.toLower

/-- Decidable test for `pat` occurring as a contiguous substring of the
second argument. -/
def containsSub (pat : List Char) : List Char → Bool
  | [] => pat.isPrefixOf []
  | c :: rest => pat.isPrefixOf (c :: rest) || containsSub pat rest

/-- Python `str.index`: position of the first occurrence of `pat` in `s`,
or `none` where Python raises `ValueError`. -/
def strIndex (s pat : List Char) : Option Nat :=
  if pat.isPrefixOf s then some 0
  else
    match s with
    | [] => none
    | _ :: rest => (strIndex rest pat).map (· + 1)

/-- Day counts of the twelve months of a non-leap year (the table Python
`datetime` uses). -/
def daysInMonthTable : List Nat := [31, 28, 31, 30, 31, 30, 31, 31, 30, 31, 30, 31]

/-- Gregorian leap-year test. -/
def isLeapYear (y : Nat) : Bool := y % 4 = 0 && (y % 100 ≠ 0 || y % 400 = 0)

/-- Number of days before January 1 of year `y` in the proleptic Gregorian
calendar (Python `datetime._days_before_year`). -/
def daysBeforeYear (y : Nat) : Nat :=
  (y - 1) * 365 + (y - 1) / 4 - (y - 1) / 100 + (y - 1) / 400

/-- Number of days of year `y` that precede the first day of month `m`
(Python `datetime._days_before_month`). -/
def daysBeforeMonth (y m : Nat) : Nat :=
  (daysInMonthTable.take (m - 1)).sum + (if 2 < m && isLeapYear y then 1 else 0)

/-- Proleptic Gregorian ordinal of the calendar date `y-m-d` (Python
`datetime._ymd2ord`); 0001-01-01 has ordinal 1. -/
def pyOrdinal (y m d : Nat) : Int :=
  ((daysBeforeYear y + daysBeforeMonth y m + d : Nat) : Int)

/-- Value of a dynamically typed column cell as a Python UDF sees it:
a numeric SAS value, an already-converted calendar date (carried by its
ordinal, see the header comment), or SQL NULL (Python `None`). -/
inductive SasVal where
  | num (n : Int)
  | date (ordinal : Int)
  | null
deriving DecidableEq

/-- Error raised inside a row-level UDF; a raised UDF exception aborts the
whole Spark job. -/
inductive UdfError where
  | typeError
deriving DecidableEq

/-- The date-conversion UDF of `clean_immigration_data`:
`lambda x: (datetime(1960, 1, 1).date() + timedelta(x)).isoformat() if x else None`.
`None` and `0` are falsy and give `None`; a nonzero numeric offset `d`
gives the date `1960-01-01` advanced by `d` days (ordinal arithmetic);
a string input (an already-converted date, nonempty hence truthy) makes
`timedelta` raise `TypeError`. -/
def get_isoformat_date : SasVal → Except UdfError SasVal
  | .null => .ok .null
  | .num d => if d = 0 then .ok .null else .ok (.date (pyOrdinal 1960 1 1 + d))
  | .date _ => .error .typeError

/-- The birth-year UDF of `clean_immigration_data`:
`lambda yr: yr if (yr and 1900 <= yr <= 2016) else None`. -/
def get_valid_birth_year : Option Int → Option Int
  | none => none
  | some yr => if yr ≠ 0 ∧ 1900 ≤ yr ∧ yr ≤ 2016 then some yr else none

/-- Row of the raw immigration relation, with the columns the pipeline
reads.  The five join-key columns and the free-text columns are nullable
strings; `arrdate`/`depdate` are dynamically typed (see `SasVal`). -/
structure ImmRow where
  cicid : Int
  i94yr : Int
  i94mon : Int
  i94res : Option (List Char)
  i94port : Option (List Char)
  i94addr : Option (List Char)
  i94mode : Option (List Char)
  i94visa : Option (List Char)
  arrdate : SasVal
  depdate : SasVal
  i94bir : Option Int
  biryear : Option Int
  occup : Option (List Char)
  gender : Option (List Char)
  dtaddto : Option (List Char)
  airline : Option (List Char)
  admnum : Int
  fltno : Option (List Char)
  visatype : Option (List Char)
deriving DecidableEq

/-- Row-level effect of the three `withColumn` calls of
`clean_immigration_data` (arrival date, departure date, birth year); the
first raised UDF error aborts the computation. -/
def cleanImmRow (r : ImmRow) : Except UdfError ImmRow :=
  match get_isoformat_date r.arrdate, get_isoformat_date r.depdate with
  | .ok arr, .ok dep =>
    .ok { r with arrdate := arr, depdate := dep, biryear := get_valid_birth_year r.biryear }
  | .error e, _ => .error e
  | .ok _, .error e => .error e

/-- Apply a fallible row transformation to every row of a relation; any
raised error aborts the whole computation (Spark job failure). -/
def mapRows (f : α → Except ε β) : List α → Except ε (List β)
  | [] => .ok []
  | a :: as =>
    match f a, mapRows f as with
    | .ok b, .ok bs => .ok (b :: bs)
    | .error e, _ => .error e
    | .ok _, .error e => .error e

/-- `clean_immigration_data`: convert the two SAS day-offset columns,
normalise the birth year, then `dropDuplicates` (exact-duplicate removal,
modelled by `List.dedup`). -/
def clean_immigration_data (rows : List ImmRow) : Except UdfError (List ImmRow) :=
  (mapRows cleanImmRow rows).map List.dedup

instance {ε α : Type} [DecidableEq ε] [DecidableEq α] : DecidableEq (Except ε α) := fun x y =>
  match x, y with
  | .ok a, .ok b =>
    if h : a = b then .isTrue (h ▸ rfl) else .isFalse fun hxy => h (Except.ok.inj hxy)
  | .error e, .error f =>
    if h : e = f then .isTrue (h ▸ rfl) else .isFalse fun hxy => h (Except.error.inj hxy)
  | .ok _, .error _ => .isFalse fun hxy => Except.noConfusion hxy
  | .error _, .ok _ => .isFalse fun hxy => Except.noConfusion hxy

theorem dedup_singleton {α : Type} [DecidableEq α] (b : α) : [b].dedup = [b] := by
  rw [List.dedup_cons_of_not_mem (List.not_mem_nil b), List.dedup_nil]

theorem get_isoformat_date_ok (v w : SasVal) (h : get_isoformat_date v = .ok w) :
    (∀ d : Int, v = .num d → d ≠ 0 → w = .date (pyOrdinal 1960 1 1 + d)) ∧
    ((v = .num 0 ∨ v = .null) → w = .null) ∧
    w ≠ .date (pyOrdinal 1960 1 1) := by
  cases v with
  | null =>
    simp only [get_isoformat_date] at h
    cases h
    simp
  | date o => simp [get_isoformat_date] at h
  | num d =>
    by_cases hd : d = 0
    · subst hd
      simp only [get_isoformat_date, if_pos rfl] at h
      cases h
      simp
    · simp only [get_isoformat_date, if_neg hd] at h
      cases h
      refine ⟨?_, ?_, ?_⟩
      · intro e he _
        cases he
        rfl
      · rintro (he | he) <;> cases he
        exact absurd rfl hd
      · intro heq
        have : pyOrdinal 1960 1 1 + d = pyOrdinal 1960 1 1 := by
          injection heq
        omega

theorem cleanImmRow_ok (r r' : ImmRow) (h : cleanImmRow r = .ok r') :
    get_isoformat_date r.arrdate = .ok r'.arrdate ∧
    get_isoformat_date r.depdate = .ok r'.depdate ∧
    r'.biryear = get_valid_birth_year r.biryear ∧
    r'.cicid = r.cicid ∧ r'.i94yr = r.i94yr ∧ r'.i94mon = r.i94mon ∧
    r'.i94res = r.i94res ∧ r'.i94port = r.i94port ∧ r'.i94addr = r.i94addr ∧
    r'.i94mode = r.i94mode ∧ r'.i94visa = r.i94visa ∧ r'.i94bir = r.i94bir ∧
    r'.occup = r.occup ∧ r'.gender = r.gender ∧ r'.dtaddto = r.dtaddto ∧
    r'.airline = r.airline ∧ r'.admnum = r.admnum ∧ r'.fltno = r.fltno ∧
    r'.visatype = r.visatype := by
  cases ha : get_isoformat_date r.arrdate with
  | error e => simp [cleanImmRow, ha] at h
  | ok arr =>
    cases hd : get_isoformat_date r.depdate with
    | error e => simp [cleanImmRow, ha, hd] at h
    | ok dep =>
      simp only [cleanImmRow, ha, hd] at h
      cases h
      simp [ha, hd]

theorem mapRows_ok_mem {α β ε : Type} {f : α → Except ε β} :
    ∀ {l : List α} {l' : List β}, mapRows f l = .ok l' → ∀ b ∈ l', ∃ a ∈ l, f a = .ok b := by
  intro l
  induction l with
  | nil =>
    intro l' h b hb
    simp only [mapRows] at h
    cases h
    simp at hb
  | cons a as ih =>
    intro l' h b hb
    simp only [mapRows] at h
    cases hfa : f a with
    | error e => rw [hfa] at h; cases h
    | ok b0 =>
      rw [hfa] at h
      cases hrest : mapRows f as with
      | error e => rw [hrest] at h; cases h
      | ok bs =>
        rw [hrest] at h
        cases h
        rcases List.mem_cons.mp hb with hb | hb
        · exact ⟨a, List.mem_cons_self a as, hb ▸ hfa⟩
        · obtain ⟨a0, ha0, hfa0⟩ := ih hrest b hb
          exact ⟨a0, List.mem_cons_of_mem a ha0, hfa0⟩

theorem mapRows_of_forall_ok {α ε : Type} {f : α → Except ε α} :
    ∀ {l : List α}, (∀ a ∈ l, f a = .ok a) → mapRows f l = .ok l := by
  intro l
  induction l with
  | nil => intro _; rfl
  | cons a as ih =>
    intro hall
    have ha : f a = .ok a := hall a (List.mem_cons_self a as)
    have has : mapRows f as = .ok as := ih fun x hx => hall x (List.mem_cons_of_mem a hx)
    simp [mapRows, ha, has]

theorem clean_immigration_singleton (r r' : ImmRow)
    (h : clean_immigration_data [r] = .ok [r']) : cleanImmRow r = .ok r' := by
  unfold clean_immigration_data at h
  cases hc : cleanImmRow r with
  | error e =>
    have : mapRows cleanImmRow [r] = .error e := by simp [mapRows, hc]
    rw [this] at h
    simp [Except.map] at h
  | ok b =>
    have : mapRows cleanImmRow [r] = .ok [b] := by simp [mapRows, hc]
    rw [this] at h
    simp only [Except.map, dedup_singleton] at h
    injection h with h
    injection h with h hnil
    exact congrArg Except.ok h

/-- C3: for every immigration row, the immigration cleaner converts the
arrival and departure day-offset columns so that a non-null arrival offset
`d` yields the calendar date 1960-01-01 plus `d` days (in ordinals,
`pyOrdinal 1960 1 1 + d`), while an offset of `0` or a null offset yields
null, and the result is never the epoch date 1960-01-01 itself. -/
theorem c3_date_offset_conversion (r r' : ImmRow)
    (h : clean_immigration_data [r] = .ok [r']) :
    (∀ d : Int, r.arrdate = .num d → d ≠ 0 →
        r'.arrdate = .date (pyOrdinal 1960 1 1 + d)) ∧
    ((r.arrdate = .num 0 ∨ r.arrdate = .null) → r'.arrdate = .null) ∧
    r'.arrdate ≠ .date (pyOrdinal 1960 1 1) ∧
    (∀ d : Int, r.depdate = .num d → d ≠ 0 →
        r'.depdate = .date (pyOrdinal 1960 1 1 + d)) ∧
    ((r.depdate = .num 0 ∨ r.depdate = .null) → r'.depdate = .null) ∧
    r'.depdate ≠ .date (pyOrdinal 1960 1 1) := by
  have hrow := clean_immigration_singleton r r' h
  obtain ⟨ha, hd, -⟩ := cleanImmRow_ok r r' hrow
  obtain ⟨ha1, ha2, ha3⟩ := get_isoformat_date_ok _ _ ha
  obtain ⟨hd1, hd2, hd3⟩ := get_isoformat_date_ok _ _ hd
  exact ⟨ha1, ha2, ha3, hd1, hd2, hd3⟩

/-- Sample raw immigration row used by witnesses: arrival offset 3, null
departure offset, in-range birth year. -/
def sampleRawImmRow : ImmRow :=
  { cicid := 1
    i94yr := 2016
    i94mon := 4
    i94res := some "236".data
    i94port := some "ATL".data
    i94addr := some "GA".data
    i94mode := some "1".data
    i94visa := some "2".data
    arrdate := .num 3
    depdate := .null
    i94bir := some 30
    biryear := some 1986
    occup := none
    gender := some "M".data
    dtaddto := none
    airline := none
    admnum := 7
    fltno := none
    visatype := some "B2".data }

/-- The row `sampleRawImmRow` after cleaning: the arrival offset 3 became
the date with ordinal 715513 (1960-01-04); everything else is unchanged. -/
def sampleCleanImmRow : ImmRow :=
  { sampleRawImmRow with arrdate := .date 715513 }

/-- Witness for C3 at a concrete row: an arrival offset of 3 is converted
to the date whose ordinal is that of 1960-01-01 plus 3, and the null
departure offset stays null. -/
theorem c3_date_offset_conversion_witness :
    clean_immigration_data [sampleRawImmRow] = .ok [sampleCleanImmRow] ∧
    sampleCleanImmRow.arrdate = .date (pyOrdinal 1960 1 1 + 3) ∧
    sampleCleanImmRow.depdate = .null := by
  have heq : clean_immigration_data [sampleRawImmRow] = .ok [sampleCleanImmRow] := by decide
  have h3 := (c3_date_offset_conversion _ _ heq).1 3 rfl (by decide)
  have h4 := (c3_date_offset_conversion _ _ heq).2.2.2.2.1 (Or.inr rfl)
  exact ⟨heq, h3, h4⟩

theorem get_valid_birth_year_ok (o : Option Int) :
    get_valid_birth_year o = none ∨
    ∃ y, get_valid_birth_year o = some y ∧ 1900 ≤ y ∧ y ≤ 2016 := by
  cases o with
  | none => exact Or.inl rfl
  | some yr =>
    by_cases hc : yr ≠ 0 ∧ 1900 ≤ yr ∧ yr ≤ 2016
    · exact Or.inr ⟨yr, by simp only [get_valid_birth_year]; rw [if_pos hc], hc.2.1, hc.2.2⟩
    · exact Or.inl (by simp only [get_valid_birth_year]; rw [if_neg hc])

theorem get_valid_birth_year_in_range (y : Int) (h1 : 1900 ≤ y) (h2 : y ≤ 2016) :
    get_valid_birth_year (some y) = some y := by
  simp only [get_valid_birth_year]
  rw [if_pos ⟨by omega, h1, h2⟩]

theorem get_valid_birth_year_out_of_range (y : Int) (h : ¬(1900 ≤ y ∧ y ≤ 2016)) :
    get_valid_birth_year (some y) = none := by
  simp only [get_valid_birth_year]
  rw [if_neg fun hc => h ⟨hc.2.1, hc.2.2⟩]

theorem get_valid_birth_year_idem (o : Option Int) :
    get_valid_birth_year (get_valid_birth_year o) = get_valid_birth_year o := by
  rcases get_valid_birth_year_ok o with h | ⟨y, h, h1, h2⟩
  · rw [h]; rfl
  · rw [h, get_valid_birth_year_in_range y h1 h2]

theorem clean_immigration_parts (rows rows' : List ImmRow)
    (h : clean_immigration_data rows = .ok rows') :
    ∃ L, mapRows cleanImmRow rows = .ok L ∧ rows' = L.dedup := by
  unfold clean_immigration_data at h
  cases hm : mapRows cleanImmRow rows with
  | error e => rw [hm] at h; simp [Except.map] at h
  | ok L =>
    rw [hm] at h
    simp only [Except.map] at h
    injection h with h
    exact ⟨L, rfl, h.symm⟩

/-- C9: in the cleaned immigration relation every birth-year value is
either null or within [1900, 2016]; the row-level cleaner replaces any
birth year outside that range with null and preserves every in-range
value unchanged. -/
theorem c9_birth_year_range (rows rows' : List ImmRow)
    (h : clean_immigration_data rows = .ok rows') :
    (∀ r' ∈ rows', r'.biryear = none ∨
        ∃ y, r'.biryear = some y ∧ 1900 ≤ y ∧ y ≤ 2016) ∧
    (∀ r ∈ rows, ∀ r'' : ImmRow, cleanImmRow r = .ok r'' → ∀ y : Int,
        r.biryear = some y →
        ((1900 ≤ y ∧ y ≤ 2016) → r''.biryear = some y) ∧
        (¬(1900 ≤ y ∧ y ≤ 2016) → r''.biryear = none)) := by
  obtain ⟨L, hL, hdedup⟩ := clean_immigration_parts rows rows' h
  constructor
  · intro r' hr'
    have hrL : r' ∈ L := List.dedup_subset L (hdedup ▸ hr')
    obtain ⟨r, _, hclean⟩ := mapRows_ok_mem hL r' hrL
    have hb := (cleanImmRow_ok r r' hclean).2.2.1
    rw [hb]
    exact get_valid_birth_year_ok r.biryear
  · intro r _ r'' hclean y hy
    have hb := (cleanImmRow_ok r r'' hclean).2.2.1
    rw [hb, hy]
    exact ⟨fun hin => get_valid_birth_year_in_range y hin.1 hin.2,
      fun hout => get_valid_birth_year_out_of_range y hout⟩

/-- Second sample raw row: null dates and an out-of-range birth year. -/
def sampleRawImmRow2 : ImmRow :=
  { sampleRawImmRow with cicid := 2, arrdate := .null, biryear := some 1850 }

/-- The row `sampleRawImmRow2` after cleaning: the out-of-range birth year
1850 became null. -/
def sampleCleanImmRow2 : ImmRow :=
  { sampleRawImmRow2 with biryear := none }

/-- Witness for C9 at concrete rows: the in-range birth year 1986 is kept
and the out-of-range birth year 1850 is nulled. -/
theorem c9_birth_year_range_witness :
    clean_immigration_data [sampleRawImmRow, sampleRawImmRow2] =
      .ok [sampleCleanImmRow, sampleCleanImmRow2] ∧
    sampleCleanImmRow.biryear = some 1986 ∧ sampleCleanImmRow2.biryear = none := by
  have heq : clean_immigration_data [sampleRawImmRow, sampleRawImmRow2] =
      .ok [sampleCleanImmRow, sampleCleanImmRow2] := by decide
  have h2 := (c9_birth_year_range _ _ heq).2 sampleRawImmRow2 (by decide)
    sampleCleanImmRow2 (by decide) 1850 (by decide)
  refine ⟨heq, by decide, h2.2 (by decide)⟩

theorem cleanImmRow_fixed (r : ImmRow) (ha : r.arrdate = .null) (hd : r.depdate = .null)
    (hb : get_valid_birth_year r.biryear = r.biryear) : cleanImmRow r = .ok r := by
  obtain ⟨c1, c2, c3, c4, c5, c6, c7, c8, arr, dep, c11, biry, c13, c14, c15, c16, c17, c18, c19⟩ := r
  simp only at ha hd hb
  subst ha
  subst hd
  simp only [cleanImmRow, get_isoformat_date]
  rw [hb]

/-- C6 counterexample: the immigration cleaner is not idempotent.  Cleaning
the concrete one-row relation `[sampleRawImmRow]` (arrival offset 3)
produces `[sampleCleanImmRow]`, but cleaning that already-cleaned relation
does not return it unchanged: the date-conversion UDF receives the
already-converted (string-typed, truthy) arrival date, `timedelta` raises
`TypeError`, and the job aborts. -/
theorem c6_counterexample_not_idempotent :
    clean_immigration_data [sampleRawImmRow] = .ok [sampleCleanImmRow] ∧
    clean_immigration_data [sampleCleanImmRow] = .error .typeError := by decide

/-- C6 amended: duplicate elimination is idempotent inside the cleaner, and
on an already-cleaned relation all of whose arrival and departure dates are
null the cleaner is the identity; only relations containing a non-null
converted date make a second application fail. -/
theorem c6_amended_idempotent_on_null_dates (rows rows' : List ImmRow)
    (h : clean_immigration_data rows = .ok rows')
    (hdates : ∀ r' ∈ rows', r'.arrdate = .null ∧ r'.depdate = .null) :
    clean_immigration_data rows' = .ok rows' := by
  obtain ⟨L, hL, hdedup⟩ := clean_immigration_parts rows rows' h
  have hfix : ∀ r' ∈ rows', cleanImmRow r' = .ok r' := by
    intro r' hr'
    have hrL : r' ∈ L := List.dedup_subset L (hdedup ▸ hr')
    obtain ⟨r, _, hclean⟩ := mapRows_ok_mem hL r' hrL
    have hb := (cleanImmRow_ok r r' hclean).2.2.1
    refine cleanImmRow_fixed r' (hdates r' hr').1 (hdates r' hr').2 ?_
    rw [hb, get_valid_birth_year_idem]
  have hnodup : rows'.Nodup := hdedup ▸ L.nodup_dedup
  unfold clean_immigration_data
  rw [mapRows_of_forall_ok hfix]
  simp only [Except.map, List.dedup_eq_self.mpr hnodup]

/-- Third sample row: already clean (null dates, in-range birth year). -/
def sampleNullDateImmRow : ImmRow :=
  { sampleRawImmRow with cicid := 3, arrdate := .null, depdate := .null }

/-- Witness for the amended C6 at a concrete relation whose dates are all
null: cleaning it again returns it unchanged. -/
theorem c6_amended_idempotent_witness :
    clean_immigration_data [sampleNullDateImmRow] = .ok [sampleNullDateImmRow] := by
  have h : clean_immigration_data [sampleNullDateImmRow] = .ok [sampleNullDateImmRow] := by
    decide
  exact c6_amended_idempotent_on_null_dates _ _ h (by decide)

/-- Row of the states code-book relation (`I94ADDR`): state code and state
name.  Both columns are nullable at the DataFrame level, and the claim
about `clean_states_data` quantifies over arbitrary input relations. -/
structure StateRow where
  state_code : Option (List Char)
  state_name : Option (List Char)
deriving DecidableEq

/-- SQL three-valued semantics of the filter expression `col != "lit"`:
comparing NULL with anything yields NULL, which the filter treats as
not-true, so a null cell never passes the filter. -/
def sqlNeqLit (v : Option (List Char)) (lit : List Char) : Bool :=
  match v with
  | none => false
  | some s => decide (s ≠ lit)

/-- `clean_states_data`: `states_df.filter('state_code != "99"')`. -/
def clean_states_data (states : List StateRow) : List StateRow :=
  states.filter fun r => sqlNeqLit r.state_code "99".data

/-- C10: for every input states relation, the cleaned state dimension has
no row with a null state code and no row with the sentinel code `"99"`:
the SQL inequality filter is not true on NULL, so null state codes are
eliminated together with the sentinel. -/
theorem c10_states_filter_drops_null (states : List StateRow) (r : StateRow)
    (hr : r ∈ clean_states_data states) :
    r.state_code ≠ none ∧ r.state_code ≠ some "99".data := by
  have hp := List.of_mem_filter hr
  cases hv : r.state_code with
  | none => rw [hv] at hp; simp [sqlNeqLit] at hp
  | some s =>
    refine ⟨by simp, ?_⟩
    rw [hv] at hp
    simp only [sqlNeqLit, decide_eq_true_eq] at hp
    simp [hp]

/-- Concrete states relation for the C10 witness: a null code, the
sentinel code and an ordinary code. -/
def sampleStates : List StateRow :=
  [⟨none, some "MISSING".data⟩, ⟨some "99".data, some "All Other Codes".data⟩,
    ⟨some "GA".data, some "GEORGIA".data⟩]

/-- Witness for C10: on `sampleStates` only the ordinary row survives, and
the theorem applies to it. -/
theorem c10_states_filter_drops_null_witness :
    clean_states_data sampleStates = [⟨some "GA".data, some "GEORGIA".data⟩] ∧
    (⟨some "GA".data, some "GEORGIA".data⟩ : StateRow).state_code ≠ none := by
  refine ⟨by decide, ?_⟩
  exact (c10_states_filter_drops_null sampleStates _ (by decide)).1

/-- Row of the raw ports code-book relation as read from the label
document: port code plus the nullable display-name column. -/
structure RawPortRow where
  port_code : List Char
  port_name : Option (List Char)
deriving DecidableEq

/-- Row of the cleaned ports relation: the display-name column has been
dropped and replaced by the derived city and state-code columns, both
non-null after `dropna`. -/
structure PortRow where
  port_code : List Char
  city : List Char
  state_code : List Char
deriving DecidableEq

/-- The city UDF of `clean_ports_data`:
`lambda port_name: port_name.split(',')[0].strip() if port_name else None`
(a null or empty display-name is falsy and yields `None`). -/
def get_city_name (portName : Option (List Char)) : Option (List Char) :=
  match portName with
  | none => none
  | some s =>
    if s = [] then none else some (pyStrip pyWhitespace (pySplit ',' s).headI)

/-- The state-code UDF of `clean_ports_data`:
`lambda port_name: port_name.split(',')[1].strip() if (port_name and len(port_name.split(',')) > 1) else None`. -/
def get_state_code (portName : Option (List Char)) : Option (List Char) :=
  match portName with
  | none => none
  | some s =>
    if s ≠ [] ∧ 1 < (pySplit ',' s).length then
      some (pyStrip pyWhitespace ((pySplit ',' s).getD 1 []))
    else none

/-- `clean_ports_data`: derive city and state code from the display-name,
drop the display-name column, drop rows with a null in the resulting
schema (`dropna`), and remove exact duplicates (`dropDuplicates`). -/
def clean_ports_data (ports : List RawPortRow) : List PortRow :=
  (ports.filterMap fun p =>
    match get_city_name p.port_name, get_state_code p.port_name with
    | some c, some s => some { port_code := p.port_code, city := c, state_code := s }
    | _, _ => none).dedup

/-- Modelled from the claim of C7, following its words: city is the text
before the first comma of the display-name, trimmed; state code is the
text after the first comma, trimmed; rows whose display-name has no comma
(or is null) are discarded; the display-name column is dropped and exact
duplicates are removed. -/
def claimPortsClean (ports : List RawPortRow) : List PortRow :=
  (ports.filterMap fun p =>
    match p.port_name with
    | none => none
    | some s =>
      if ',' ∈ s then
        some { port_code := p.port_code
               city := pyStrip pyWhitespace (s.takeWhile (· ≠ ','))
               state_code := pyStrip pyWhitespace (s.dropWhile (· ≠ ',')).tail }
      else none).dedup

/-- The claim of C7 amended: identical except that the state code is the
second comma-separated field of the display-name (the text between the
first comma and the next comma or the end of the string), trimmed. -/
def amendedPortsClean (ports : List RawPortRow) : List PortRow :=
  (ports.filterMap fun p =>
    match p.port_name with
    | none => none
    | some s =>
      if ',' ∈ s then
        some { port_code := p.port_code
               city := pyStrip pyWhitespace (s.takeWhile (· ≠ ','))
               state_code :=
                 pyStrip pyWhitespace (((s.dropWhile (· ≠ ',')).tail).takeWhile (· ≠ ',')) }
      else none).dedup

/-- C7 counterexample: on a display-name with two commas the ports cleaner
keeps only the text between the first and second comma as the state code,
not the whole text after the first comma that the claim describes. -/
theorem c7_counterexample_two_commas :
    clean_ports_data [⟨"XXX".data, some "A,B,C".data⟩] =
      [⟨"XXX".data, "A".data, "B".data⟩] ∧
    claimPortsClean [⟨"XXX".data, some "A,B,C".data⟩] =
      [⟨"XXX".data, "A".data, "B,C".data⟩] ∧
    clean_ports_data [⟨"XXX".data, some "A,B,C".data⟩] ≠
      claimPortsClean [⟨"XXX".data, some "A,B,C".data⟩] := by decide

theorem pySplit_ne_nil (sep : Char) (s : List Char) : pySplit sep s ≠ [] := by
  cases s with
  | nil => simp [pySplit]
  | cons c rest =>
    by_cases hc : c = sep
    · simp [pySplit, hc]
    · simp only [pySplit, if_neg hc]
      cases hps : pySplit sep rest <;> simp

theorem pySplit_headI (sep : Char) (s : List Char) :
    (pySplit sep s).headI = s.takeWhile (· ≠ sep) := by
  induction s with
  | nil => rfl
  | cons c rest ih =>
    by_cases hc : c = sep
    · subst hc
      simp [pySplit, List.takeWhile_cons]
    · simp only [pySplit, if_neg hc]
      cases hps : pySplit sep rest with
      | nil => exact absurd hps (pySplit_ne_nil sep rest)
      | cons seg segs =>
        rw [hps] at ih
        simp only [List.headI, List.takeWhile_cons, decide_eq_true_eq] at ih ⊢
        rw [if_pos hc]
        rw [← ih]

theorem pySplit_length_gt_one_iff (sep : Char) (s : List Char) :
    1 < (pySplit sep s).length ↔ sep ∈ s := by
  induction s with
  | nil => simp [pySplit]
  | cons c rest ih =>
    by_cases hc : c = sep
    · subst hc
      have hne := pySplit_ne_nil c rest
      have hlen : 0 < (pySplit c rest).length := List.length_pos.mpr hne
      simp [pySplit, List.length_cons]
      omega
    · simp only [pySplit, if_neg hc]
      cases hps : pySplit sep rest with
      | nil => exact absurd hps (pySplit_ne_nil sep rest)
      | cons seg segs =>
        rw [hps] at ih
        simp only [List.length_cons] at ih ⊢
        rw [List.mem_cons]
        constructor
        · intro h
          exact Or.inr (ih.mp h)
        · rintro (h | h)
          · exact absurd h.symm hc
          · exact ih.mpr h

theorem getD_zero_eq_headI (l : List (List Char)) (h : l ≠ []) : l.getD 0 [] = l.headI := by
  cases l with
  | nil => exact absurd rfl h
  | cons x xs => rfl

theorem pySplit_getD_one (sep : Char) (s : List Char) (hmem : sep ∈ s) :
    (pySplit sep s).getD 1 [] = ((s.dropWhile (· ≠ sep)).tail).takeWhile (· ≠ sep) := by
  induction s with
  | nil => cases hmem
  | cons c rest ih =>
    by_cases hc : c = sep
    · subst hc
      have hdrop : List.dropWhile (fun x => decide (x ≠ c)) (c :: rest) = c :: rest := by
        rw [List.dropWhile_cons]
        simp
      have hsplit : pySplit c (c :: rest) = [] :: pySplit c rest := by
        simp [pySplit]
      rw [hsplit, List.getD_cons_succ]
      show (pySplit c rest).getD 0 [] =
        List.takeWhile (fun x => decide (x ≠ c)) (List.dropWhile (fun x => decide (x ≠ c)) (c :: rest)).tail
      rw [hdrop, List.tail_cons, getD_zero_eq_headI _ (pySplit_ne_nil c rest)]
      exact pySplit_headI c rest
    · have hmem' : sep ∈ rest := by
        rcases List.mem_cons.mp hmem with h | h
        · exact absurd h.symm hc
        · exact h
      simp only [pySplit, if_neg hc]
      cases hps : pySplit sep rest with
      | nil => exact absurd hps (pySplit_ne_nil sep rest)
      | cons seg segs =>
        have ih' := ih hmem'
        rw [hps] at ih'
        simp only [List.getD_cons_succ, List.getD_cons_zero] at ih' ⊢
        rw [List.dropWhile_cons]
        rw [if_pos (by simp [hc])]
        exact ih'

/-- C7 amended: for every port code-book row the ports cleaner produces
(port code, city, state code) where city is the text before the first
comma of the display-name, trimmed, and state code is the second
comma-separated field (the text between the first comma and the next
comma or the end of the string), trimmed; rows whose display-name has no
comma (or is null) are discarded, the display-name column is removed, and
exact duplicates are removed. -/
theorem c7_amended_ports_cleaner (ports : List RawPortRow) :
    clean_ports_data ports = amendedPortsClean ports := by
  unfold clean_ports_data amendedPortsClean
  congr 1
  apply List.filterMap_congr
  intro p _
  cases hpn : p.port_name with
  | none => simp [get_city_name, get_state_code]
  | some s =>
    by_cases hnil : s = []
    · subst hnil
      simp [get_city_name, get_state_code]
    · by_cases hmem : ',' ∈ s
      · have hlen : 1 < (pySplit ',' s).length := (pySplit_length_gt_one_iff ',' s).mpr hmem
        simp only [get_city_name, get_state_code, if_neg hnil, if_pos (And.intro hnil hlen),
          if_pos hmem]
        rw [pySplit_headI, pySplit_getD_one ',' s hmem]
      · have hlen : ¬ 1 < (pySplit ',' s).length :=
          fun h => hmem ((pySplit_length_gt_one_iff ',' s).mp h)
        simp only [get_city_name, get_state_code, if_neg hnil, if_neg hmem,
          if_neg (fun hand : s ≠ [] ∧ 1 < (pySplit ',' s).length => hlen hand.2)]

/-- Row of the countries code-book relation (`I94RES`): both columns come
from the label parser, hence are non-null strings. -/
structure CountryRow where
  country_code : List Char
  country_name : List Char
deriving DecidableEq

def noCountryLit : List Char := "No Country".data

def invalidLit : List Char := "INVALID".data

def collapsedLit : List Char := "Collapsed".data

def naLit : List Char := "NA".data

/-- Line terminators that the dot of a Java regular expression does not
match. -/
def isLineTerm (c : Char) : Bool := c = '\n' || c = '\r'

/-- Text remaining after one regex match starting at `s`: the match
consumes the matched literal of length `litLen` and then, greedily via
`.*`, every character up to the next line terminator or the end of the
string. -/
def consumeMatch (s : List Char) (litLen : Nat) : List Char :=
  (s.drop litLen).dropWhile fun c => !isLineTerm c

/-- Replacement loop of
`regexp_replace(country_name, '^No Country.*|INVALID.*|Collapsed.*', 'NA')`
(Java regex semantics, as Spark uses).  Scanning left to right:
`^No Country.*` can match only at the very start of the input (the
MULTILINE flag is not set), while `INVALID.*` and `Collapsed.*` match at
any position; each match is replaced by `NA` and scanning resumes after
the consumed text.  `fuel` bounds the number of scan steps; every step
consumes at least one character, so `s.length` steps always suffice and
the result is fuel-independent from there on (`regexReplaceGoF_fuel`). -/
def regexReplaceGoF : Nat → List Char → Bool → List Char
  | _, [], _ => []
  | 0, s, _ => s
  | fuel + 1, c :: rest, atStart =>
    if atStart && noCountryLit.isPrefixOf (c :: rest) then
      naLit ++ regexReplaceGoF fuel (consumeMatch (c :: rest) noCountryLit.length) false
    else if invalidLit.isPrefixOf (c :: rest) then
      naLit ++ regexReplaceGoF fuel (consumeMatch (c :: rest) invalidLit.length) false
    else if collapsedLit.isPrefixOf (c :: rest) then
      naLit ++ regexReplaceGoF fuel (consumeMatch (c :: rest) collapsedLit.length) false
    else c :: regexReplaceGoF fuel rest false

/-- `regexp_replace` with the placeholder pattern, applied to one country
name. -/
def regexReplaceCountryName (s : List Char) : List Char :=
  regexReplaceGoF s.length s true

/-- `clean_countries_data`: replace placeholder country names via
`regexp_replace` on the `country_name` column; no rows are added or
removed and the code column is untouched. -/
def clean_countries_data (countries : List CountryRow) : List CountryRow :=
  countries.map fun r => { r with country_name := regexReplaceCountryName r.country_name }

/-- Test for a name starting with one of the three placeholder literals,
as the claim of C8 describes. -/
def startsWithPlaceholder (name : List Char) : Bool :=
  noCountryLit.isPrefixOf name || invalidLit.isPrefixOf name || collapsedLit.isPrefixOf name

/-- Modelled from the claim of C8, following its words: replace every
country name matching one of the placeholder patterns (prefix No Country,
INVALID, or Collapsed) with exactly the string NA, and let every other
country name pass through unchanged. -/
def claimCountriesClean (countries : List CountryRow) : List CountryRow :=
  countries.map fun r =>
    if startsWithPlaceholder r.country_name then { r with country_name := naLit } else r

theorem consumeMatch_length_le (s : List Char) (k : Nat) :
    (consumeMatch s k).length ≤ s.length - k := by
  unfold consumeMatch
  exact le_trans (List.Sublist.length_le (List.dropWhile_sublist _))
    (le_of_eq (List.length_drop k s))

theorem regexReplaceGoF_fuel : ∀ (f1 f2 : Nat) (s : List Char) (b : Bool),
    s.length ≤ f1 → s.length ≤ f2 → regexReplaceGoF f1 s b = regexReplaceGoF f2 s b := by
  intro f1
  induction f1 with
  | zero =>
    intro f2 s b h1 _
    have : s = [] := List.length_eq_zero.mp (Nat.le_zero.mp h1)
    subst this
    cases f2 <;> rfl
  | succ f ih =>
    intro f2 s b h1 h2
    cases s with
    | nil => cases f2 <;> rfl
    | cons c rest =>
      cases f2 with
      | zero => simp [List.length_cons] at h2
      | succ g =>
        have hrest1 : rest.length ≤ f := by simp [List.length_cons] at h1; omega
        have hrest2 : rest.length ≤ g := by simp [List.length_cons] at h2; omega
        have hcons : ∀ k, 0 < k →
            (consumeMatch (c :: rest) k).length ≤ f ∧
            (consumeMatch (c :: rest) k).length ≤ g := by
          intro k hk
          have h := consumeMatch_length_le (c :: rest) k
          simp only [List.length_cons] at h
          omega
        simp only [regexReplaceGoF]
        by_cases hb1 : (b && noCountryLit.isPrefixOf (c :: rest)) = true
        · rw [if_pos hb1, if_pos hb1]
          have hb := hcons noCountryLit.length (by decide)
          rw [ih g _ false hb.1 hb.2]
        · rw [if_neg hb1, if_neg hb1]
          by_cases hb2 : invalidLit.isPrefixOf (c :: rest) = true
          · rw [if_pos hb2, if_pos hb2]
            have hb := hcons invalidLit.length (by decide)
            rw [ih g _ false hb.1 hb.2]
          · rw [if_neg hb2, if_neg hb2]
            by_cases hb3 : collapsedLit.isPrefixOf (c :: rest) = true
            · rw [if_pos hb3, if_pos hb3]
              have hb := hcons collapsedLit.length (by decide)
              rw [ih g _ false hb.1 hb.2]
            · rw [if_neg hb3, if_neg hb3]
              rw [ih g rest false hrest1 hrest2]

theorem regexReplaceGoF_id_of_no_occurrence :
    ∀ (s : List Char) (f : Nat), s.length ≤ f →
    containsSub invalidLit s = false → containsSub collapsedLit s = false →
    regexReplaceGoF f s false = s := by
  intro s
  induction s with
  | nil => intro f _ _ _; cases f <;> rfl
  | cons c rest ih =>
    intro f hf hinv hcoll
    cases f with
    | zero => simp [List.length_cons] at hf
    | succ g =>
      simp only [containsSub, Bool.or_eq_false_iff] at hinv hcoll
      simp only [regexReplaceGoF, Bool.false_and, if_neg (by simp : ¬ (false = true)),
        if_neg (by simp [hinv.1] : ¬ (invalidLit.isPrefixOf (c :: rest) = true)),
        if_neg (by simp [hcoll.1] : ¬ (collapsedLit.isPrefixOf (c :: rest) = true))]
      rw [ih g (by simp [List.length_cons] at hf; omega) hinv.2 hcoll.2]

theorem regexReplaceGoF_id_start (s : List Char) (f : Nat) (hf : s.length ≤ f)
    (hpre : noCountryLit.isPrefixOf s = false)
    (hinv : containsSub invalidLit s = false)
    (hcoll : containsSub collapsedLit s = false) :
    regexReplaceGoF f s true = s := by
  cases s with
  | nil => cases f <;> rfl
  | cons c rest =>
    cases f with
    | zero => simp [List.length_cons] at hf
    | succ g =>
      simp only [containsSub, Bool.or_eq_false_iff] at hinv hcoll
      simp only [regexReplaceGoF, hpre, Bool.and_false, if_neg (by simp : ¬ (false = true)),
        if_neg (by simp [hinv.1] : ¬ (invalidLit.isPrefixOf (c :: rest) = true)),
        if_neg (by simp [hcoll.1] : ¬ (collapsedLit.isPrefixOf (c :: rest) = true))]
      rw [regexReplaceGoF_id_of_no_occurrence rest g
        (by simp [List.length_cons] at hf; omega) hinv.2 hcoll.2]

theorem consumeMatch_append (lit t : List Char)
    (hterm : ∀ c ∈ t, isLineTerm c = false) :
    consumeMatch (lit ++ t) lit.length = [] := by
  unfold consumeMatch
  rw [List.drop_left, List.dropWhile_eq_nil_iff]
  intro x hx
  simp [hterm x hx]

theorem isPrefixOf_false_of_head_ne (a b : Char) (as bs : List Char) (h : ¬ a = b) :
    List.isPrefixOf (a :: as) (b :: bs) = false := by
  rw [List.isPrefixOf_cons₂]
  simp [h]

theorem regexReplaceGoF_nc_prefix (t : List Char) (f : Nat)
    (hf : (noCountryLit ++ t).length ≤ f)
    (hterm : ∀ c ∈ t, isLineTerm c = false) :
    regexReplaceGoF f (noCountryLit ++ t) true = naLit := by
  cases f with
  | zero =>
    rw [List.length_append] at hf
    have : noCountryLit.length = 10 := by decide
    omega
  | succ g =>
    have hcc : noCountryLit ++ t = 'N' :: ("o Country".data ++ t) := rfl
    have hpre : noCountryLit.isPrefixOf ('N' :: ("o Country".data ++ t)) = true := by
      rw [← hcc, List.isPrefixOf_iff_prefix]
      exact List.prefix_append _ _
    rw [hcc]
    simp only [regexReplaceGoF, hpre, Bool.true_and, if_pos trivial]
    rw [← hcc, consumeMatch_append _ _ hterm]
    simp only [regexReplaceGoF, List.append_nil]

theorem regexReplaceGoF_inv_prefix (t : List Char) (f : Nat) (b : Bool)
    (hf : (invalidLit ++ t).length ≤ f)
    (hterm : ∀ c ∈ t, isLineTerm c = false) :
    regexReplaceGoF f (invalidLit ++ t) b = naLit := by
  cases f with
  | zero =>
    rw [List.length_append] at hf
    have : invalidLit.length = 7 := by decide
    omega
  | succ g =>
    have hcc : invalidLit ++ t = 'I' :: ("NVALID".data ++ t) := rfl
    have hnc : noCountryLit.isPrefixOf ('I' :: ("NVALID".data ++ t)) = false :=
      isPrefixOf_false_of_head_ne 'N' 'I' _ _ (by decide)
    have hpre : invalidLit.isPrefixOf ('I' :: ("NVALID".data ++ t)) = true := by
      rw [← hcc, List.isPrefixOf_iff_prefix]
      exact List.prefix_append _ _
    rw [hcc]
    simp only [regexReplaceGoF, hnc, Bool.and_false, if_neg (by simp : ¬ (false = true)),
      hpre, if_pos trivial]
    rw [← hcc, consumeMatch_append _ _ hterm]
    simp only [regexReplaceGoF, List.append_nil]

theorem regexReplaceGoF_coll_prefix (t : List Char) (f : Nat) (b : Bool)
    (hf : (collapsedLit ++ t).length ≤ f)
    (hterm : ∀ c ∈ t, isLineTerm c = false) :
    regexReplaceGoF f (collapsedLit ++ t) b = naLit := by
  cases f with
  | zero =>
    rw [List.length_append] at hf
    have : collapsedLit.length = 9 := by decide
    omega
  | succ g =>
    have hcc : collapsedLit ++ t = 'C' :: ("ollapsed".data ++ t) := rfl
    have hnc : noCountryLit.isPrefixOf ('C' :: ("ollapsed".data ++ t)) = false :=
      isPrefixOf_false_of_head_ne 'N' 'C' _ _ (by decide)
    have hinv : invalidLit.isPrefixOf ('C' :: ("ollapsed".data ++ t)) = false :=
      isPrefixOf_false_of_head_ne 'I' 'C' _ _ (by decide)
    have hpre : collapsedLit.isPrefixOf ('C' :: ("ollapsed".data ++ t)) = true := by
      rw [← hcc, List.isPrefixOf_iff_prefix]
      exact List.prefix_append _ _
    rw [hcc]
    simp only [regexReplaceGoF, hnc, Bool.and_false, if_neg (by simp : ¬ (false = true)),
      hinv, if_neg (by simp : ¬ (false = true)), hpre, if_pos trivial]
    rw [← hcc, consumeMatch_append _ _ hterm]
    simp only [regexReplaceGoF, List.append_nil]

theorem zip_map_mem {α β : Type} (l : List α) (g : α → β) (pr : α × β)
    (h : pr ∈ l.zip (l.map g)) : pr.2 = g pr.1 := by
  induction l with
  | nil => cases h
  | cons a as ih =>
    simp only [List.map_cons, List.zip_cons_cons] at h
    rcases List.mem_cons.mp h with h | h
    · rw [h]
    · exact ih h

/-- C8 counterexample: the claim says a name not starting with any of the
three placeholders passes through unchanged, but because `INVALID.*` and
`Collapsed.*` are unanchored, the name `X INVALID` (which merely contains
`INVALID`) is rewritten to `X NA` by the code. -/
theorem c8_counterexample_unanchored :
    startsWithPlaceholder "X INVALID".data = false ∧
    clean_countries_data [⟨"123".data, "X INVALID".data⟩] =
      [⟨"123".data, "X NA".data⟩] ∧
    claimCountriesClean [⟨"123".data, "X INVALID".data⟩] =
      [⟨"123".data, "X INVALID".data⟩] ∧
    clean_countries_data [⟨"123".data, "X INVALID".data⟩] ≠
      claimCountriesClean [⟨"123".data, "X INVALID".data⟩] := by decide

/-- C8 amended: the countries cleaner removes no rows and leaves the code
column untouched; a name that starts with one of the placeholder literals
No Country, INVALID, or Collapsed (and contains no line terminator) is
replaced by exactly NA; a name that does not start with No Country and
does not contain INVALID or Collapsed anywhere passes through unchanged.
Because `INVALID.*` and `Collapsed.*` are unanchored, a name merely
containing one of those literals is also rewritten (from the occurrence
to the end of its line), so different-only-by-containment names do not
pass through. -/
theorem c8_amended_countries_cleaner (countries : List CountryRow) :
    (clean_countries_data countries).length = countries.length ∧
    ∀ pr ∈ countries.zip (clean_countries_data countries),
      pr.2.country_code = pr.1.country_code ∧
      ((startsWithPlaceholder pr.1.country_name = true ∧
        (∀ c ∈ pr.1.country_name, isLineTerm c = false)) →
        pr.2.country_name = naLit) ∧
      ((noCountryLit.isPrefixOf pr.1.country_name = false ∧
        containsSub invalidLit pr.1.country_name = false ∧
        containsSub collapsedLit pr.1.country_name = false) →
        pr.2.country_name = pr.1.country_name) := by
  constructor
  · simp [clean_countries_data]
  · intro pr hpr
    have h2 := zip_map_mem _ _ _ hpr
    refine ⟨by rw [h2], ?_, ?_⟩
    · rintro ⟨hsw, hterm⟩
      rw [h2]
      show regexReplaceCountryName pr.1.country_name = naLit
      unfold regexReplaceCountryName
      simp only [startsWithPlaceholder, Bool.or_eq_true] at hsw
      rcases hsw with (hp | hp) | hp
      · obtain ⟨t, ht⟩ := List.isPrefixOf_iff_prefix.mp hp
        rw [← ht]
        exact regexReplaceGoF_nc_prefix t _ le_rfl
          fun c hc => hterm c (ht ▸ List.mem_append_right _ hc)
      · obtain ⟨t, ht⟩ := List.isPrefixOf_iff_prefix.mp hp
        rw [← ht]
        exact regexReplaceGoF_inv_prefix t _ true le_rfl
          fun c hc => hterm c (ht ▸ List.mem_append_right _ hc)
      · obtain ⟨t, ht⟩ := List.isPrefixOf_iff_prefix.mp hp
        rw [← ht]
        exact regexReplaceGoF_coll_prefix t _ true le_rfl
          fun c hc => hterm c (ht ▸ List.mem_append_right _ hc)
    · rintro ⟨hnc, hinv, hcoll⟩
      rw [h2]
      show regexReplaceCountryName pr.1.country_name = pr.1.country_name
      unfold regexReplaceCountryName
      exact regexReplaceGoF_id_start _ _ le_rfl hnc hinv hcoll

/-- Concrete countries relation for the C8 witness. -/
def sampleCountries : List CountryRow :=
  [⟨"100".data, "INVALID: STATELESS".data⟩, ⟨"101".data, "CANADA".data⟩]

/-- Witness for the amended C8 on `sampleCountries`: the INVALID-prefixed
name becomes exactly NA and the ordinary name passes through unchanged. -/
theorem c8_amended_countries_cleaner_witness :
    ((⟨"100".data, "INVALID: STATELESS".data⟩, ⟨"100".data, naLit⟩) :
        CountryRow × CountryRow).2.country_name = naLit ∧
    ((⟨"101".data, "CANADA".data⟩, ⟨"101".data, "CANADA".data⟩) :
        CountryRow × CountryRow).2.country_name =
      ((⟨"101".data, "CANADA".data⟩, ⟨"101".data, "CANADA".data⟩) :
        CountryRow × CountryRow).1.country_name := by
  have h := c8_amended_countries_cleaner sampleCountries
  exact ⟨(h.2 _ (by decide)).2.1 ⟨by decide, by decide⟩,
    (h.2 _ (by decide)).2.2 ⟨by decide, by decide, by decide⟩⟩

/-- Row of a code-book reference relation: a code and its display name
(the five code-books share this shape with differing column names). -/
structure CodeRow where
  code : List Char
  name : List Char
deriving DecidableEq

/-- LEFT JOIN lookup of an immigration key against a code-book, keeping
the joined code column: the list of matching code-book codes, or the
single null row a LEFT JOIN produces when nothing matches.  Under SQL
equality a null key matches nothing. -/
def leftJoinCodes (book : List CodeRow) (key : Option (List Char)) : List (Option (List Char)) :=
  let hits := (book.filter fun e => key = some e.code).map fun e => some e.code
  if hits.isEmpty then [none] else hits

/-- Output row of the immigration fact table, with the SELECT column list
of `create_immigration_fact_table`. -/
structure FactRow where
  cicid : Int
  entry_year : Int
  entry_month : Int
  origin_country_code : Option (List Char)
  port_code : Option (List Char)
  arrival_date : SasVal
  travel_mode_code : Option (List Char)
  us_state_code : Option (List Char)
  departure_date : SasVal
  age : Option Int
  visa_category_code : Option (List Char)
  occupation : Option (List Char)
  gender : Option (List Char)
  birth_year : Option Int
  entry_date : Option (List Char)
  airline : Option (List Char)
  admission_number : Int
  flight_number : Option (List Char)
  visa_type : Option (List Char)
deriving DecidableEq

/-- The SELECT clause of the fact-table query: immigration columns renamed,
plus the joined key column from each of the five code-books. -/
def mkFactRow (r : ImmRow) (oc pc st vc mc : Option (List Char)) : FactRow :=
  { cicid := r.cicid
    entry_year := r.i94yr
    entry_month := r.i94mon
    origin_country_code := oc
    port_code := pc
    arrival_date := r.arrdate
    travel_mode_code := mc
    us_state_code := st
    departure_date := r.depdate
    age := r.i94bir
    visa_category_code := vc
    occupation := r.occup
    gender := r.gender
    birth_year := r.biryear
    entry_date := r.dtaddto
    airline := r.airline
    admission_number := r.admnum
    flight_number := r.fltno
    visa_type := r.visatype }

/-- All combined rows the five successive LEFT JOINs produce for one
immigration record (before the WHERE filter). -/
def factRowsOf (r : ImmRow) (countries states ports visas modes : List CodeRow) :
    List FactRow :=
  (leftJoinCodes countries r.i94res).flatMap fun oc =>
    (leftJoinCodes ports r.i94port).flatMap fun pc =>
      (leftJoinCodes states r.i94addr).flatMap fun st =>
        (leftJoinCodes visas r.i94visa).flatMap fun vc =>
          (leftJoinCodes modes r.i94mode).map fun mc => mkFactRow r oc pc st vc mc

/-- The WHERE clause of the fact-table query: every joined key column must
be non-null. -/
def allKeysNonNull (f : FactRow) : Bool :=
  f.origin_country_code.isSome && f.port_code.isSome && f.us_state_code.isSome &&
    f.travel_mode_code.isSome && f.visa_category_code.isSome

/-- `create_immigration_fact_table`: five LEFT JOINs from the immigration
relation to the code-books followed by the not-null filter on the five
joined keys. -/
def create_immigration_fact_table (imm : List ImmRow)
    (countries states ports visas modes : List CodeRow) : List FactRow :=
  (imm.flatMap fun r => factRowsOf r countries states ports visas modes).filter allKeysNonNull

theorem leftJoinCodes_mem {book : List CodeRow} {key : Option (List Char)}
    {oc : Option (List Char)} (h : oc ∈ leftJoinCodes book key) :
    oc = none ∨ ∃ e ∈ book, oc = some e.code ∧ key = some e.code := by
  unfold leftJoinCodes at h
  by_cases hempty : ((book.filter fun e => key = some e.code).map fun e => some e.code).isEmpty
  · rw [if_pos hempty] at h
    simp only [List.mem_singleton] at h
    exact Or.inl h
  · rw [if_neg hempty] at h
    simp only [List.mem_map, List.mem_filter] at h
    obtain ⟨e, ⟨he, hkey⟩, hoc⟩ := h
    exact Or.inr ⟨e, he, hoc.symm, of_decide_eq_true hkey⟩

theorem leftJoinCodes_unresolved {book : List CodeRow} {key : Option (List Char)}
    (h : ∀ e ∈ book, key ≠ some e.code) : leftJoinCodes book key = [none] := by
  unfold leftJoinCodes
  have hfilter : (book.filter fun e => key = some e.code) = [] := by
    rw [List.filter_eq_nil_iff]
    intro e he
    simp only [decide_eq_true_eq]
    exact h e he
  rw [hfilter]
  rfl

theorem mem_factRowsOf {f : FactRow} {r : ImmRow}
    {countries states ports visas modes : List CodeRow}
    (h : f ∈ factRowsOf r countries states ports visas modes) :
    ∃ oc ∈ leftJoinCodes countries r.i94res, ∃ pc ∈ leftJoinCodes ports r.i94port,
      ∃ st ∈ leftJoinCodes states r.i94addr, ∃ vc ∈ leftJoinCodes visas r.i94visa,
        ∃ mc ∈ leftJoinCodes modes r.i94mode, f = mkFactRow r oc pc st vc mc := by
  simp only [factRowsOf, List.mem_flatMap, List.mem_map] at h
  obtain ⟨oc, hoc, pc, hpc, st, hst, vc, hvc, mc, hmc, hf⟩ := h
  exact ⟨oc, hoc, pc, hpc, st, hst, vc, hvc, mc, hmc, hf.symm⟩

/-- C2: every row of the immigration fact table has its origin-country,
port, state, visa-category, and travel-mode codes present in the
corresponding code-book (the post-join not-null filter turns the LEFT
JOINs into inner-join semantics), and an immigration record whose key
fails to resolve in some code-book contributes no fact row at all (it is
silently excluded, not an error). -/
theorem c2_fact_table_referential_integrity (imm : List ImmRow)
    (countries states ports visas modes : List CodeRow) :
    (∀ f ∈ create_immigration_fact_table imm countries states ports visas modes,
      (∃ e ∈ countries, f.origin_country_code = some e.code) ∧
      (∃ e ∈ ports, f.port_code = some e.code) ∧
      (∃ e ∈ states, f.us_state_code = some e.code) ∧
      (∃ e ∈ visas, f.visa_category_code = some e.code) ∧
      (∃ e ∈ modes, f.travel_mode_code = some e.code)) ∧
    (∀ r : ImmRow,
      ((∀ e ∈ countries, r.i94res ≠ some e.code) ∨
       (∀ e ∈ ports, r.i94port ≠ some e.code) ∨
       (∀ e ∈ states, r.i94addr ≠ some e.code) ∨
       (∀ e ∈ visas, r.i94visa ≠ some e.code) ∨
       (∀ e ∈ modes, r.i94mode ≠ some e.code)) →
      create_immigration_fact_table [r] countries states ports visas modes = []) := by
  constructor
  · intro f hf
    have hmemf := List.mem_of_mem_filter hf
    have hkeys := List.of_mem_filter hf
    simp only [allKeysNonNull, Bool.and_eq_true, Option.isSome_iff_exists] at hkeys
    obtain ⟨⟨⟨⟨⟨co, hco⟩, ⟨po, hpo⟩⟩, ⟨so, hso⟩⟩, ⟨mo, hmo⟩⟩, ⟨vo, hvo⟩⟩ := hkeys
    simp only [List.mem_flatMap] at hmemf
    obtain ⟨r, _, hfr⟩ := hmemf
    obtain ⟨oc, hoc, pc, hpc, st, hst, vc, hvc, mc, hmc, hfeq⟩ := mem_factRowsOf hfr
    subst hfeq
    simp only [mkFactRow] at hco hpo hso hmo hvo ⊢
    refine ⟨?_, ?_, ?_, ?_, ?_⟩
    · rcases leftJoinCodes_mem hoc with h | ⟨e, he, heq, -⟩
      · rw [h] at hco; cases hco
      · exact ⟨e, he, heq⟩
    · rcases leftJoinCodes_mem hpc with h | ⟨e, he, heq, -⟩
      · rw [h] at hpo; cases hpo
      · exact ⟨e, he, heq⟩
    · rcases leftJoinCodes_mem hst with h | ⟨e, he, heq, -⟩
      · rw [h] at hso; cases hso
      · exact ⟨e, he, heq⟩
    · rcases leftJoinCodes_mem hvc with h | ⟨e, he, heq, -⟩
      · rw [h] at hvo; cases hvo
      · exact ⟨e, he, heq⟩
    · rcases leftJoinCodes_mem hmc with h | ⟨e, he, heq, -⟩
      · rw [h] at hmo; cases hmo
      · exact ⟨e, he, heq⟩
  · intro r hr
    unfold create_immigration_fact_table
    rw [List.filter_eq_nil_iff]
    intro f hf
    simp only [List.mem_flatMap, List.mem_singleton] at hf
    obtain ⟨r', hr', hfr⟩ := hf
    subst hr'
    obtain ⟨oc, hoc, pc, hpc, st, hst, vc, hvc, mc, hmc, hfeq⟩ := mem_factRowsOf hfr
    subst hfeq
    intro hkeys
    simp only [allKeysNonNull, Bool.and_eq_true, Option.isSome_iff_exists, mkFactRow] at hkeys
    obtain ⟨⟨⟨⟨⟨co, hco⟩, ⟨po, hpo⟩⟩, ⟨so, hso⟩⟩, ⟨mo, hmo⟩⟩, ⟨vo, hvo⟩⟩ := hkeys
    rcases hr with h | h | h | h | h
    · rw [leftJoinCodes_unresolved h] at hoc
      simp only [List.mem_singleton] at hoc
      rw [hoc] at hco
      cases hco
    · rw [leftJoinCodes_unresolved h] at hpc
      simp only [List.mem_singleton] at hpc
      rw [hpc] at hpo
      cases hpo
    · rw [leftJoinCodes_unresolved h] at hst
      simp only [List.mem_singleton] at hst
      rw [hst] at hso
      cases hso
    · rw [leftJoinCodes_unresolved h] at hvc
      simp only [List.mem_singleton] at hvc
      rw [hvc] at hvo
      cases hvo
    · rw [leftJoinCodes_unresolved h] at hmc
      simp only [List.mem_singleton] at hmc
      rw [hmc] at hmo
      cases hmo

def bookCountries : List CodeRow := [⟨"236".data, "UNITED KINGDOM".data⟩]

def bookStates : List CodeRow := [⟨"GA".data, "GEORGIA".data⟩]

def bookPorts : List CodeRow := [⟨"ATL".data, "ATLANTA, GA".data⟩]

def bookVisas : List CodeRow := [⟨"2".data, "Pleasure".data⟩]

def bookModes : List CodeRow := [⟨"1".data, "Air".data⟩]

/-- A code-book resolving none of the keys of `sampleRawImmRow`. -/
def bookOther : List CodeRow := [⟨"999".data, "OTHER".data⟩]

/-- Witness for C2: with resolving code-books the concrete fact row keeps
a code present in the countries book, and with a non-resolving countries
book the same immigration record contributes no fact row. -/
theorem c2_fact_table_referential_integrity_witness :
    (∃ e ∈ bookCountries,
      (mkFactRow sampleRawImmRow (some "236".data) (some "ATL".data) (some "GA".data)
        (some "2".data) (some "1".data)).origin_country_code = some e.code) ∧
    create_immigration_fact_table [sampleRawImmRow]
      bookOther bookOther bookOther bookOther bookOther = [] := by
  refine ⟨((c2_fact_table_referential_integrity [sampleRawImmRow]
    bookCountries bookStates bookPorts bookVisas bookModes).1 _ (by decide)).1, ?_⟩
  exact (c2_fact_table_referential_integrity [sampleRawImmRow]
    bookOther bookOther bookOther bookOther bookOther).2 sampleRawImmRow (Or.inl (by decide))

/-- Row of the cleaned US demographics relation (the 12 declared columns;
the cleaned relation passed `dropna`, so every cell is non-null). -/
structure DemoRow where
  city : List Char
  state : List Char
  median_age : Int
  male_population : Int
  female_population : Int
  total_population : Int
  number_of_veterans : Int
  foreign_born : Int
  average_household_size : Int
  state_code : List Char
  race : List Char
  count : Int
deriving DecidableEq

/-- Row of the aggregated demographics sub-query (GROUP BY city,
state_code with five SUM columns). -/
structure AggRow where
  city : List Char
  state_code : List Char
  male_population : Int
  female_population : Int
  total_population : Int
  number_of_veterans : Int
  num_foreign_born : Int
deriving DecidableEq

/-- Output row of the city-demographics dimension: the port code joined
onto the aggregated demographics columns. -/
structure CityDemoRow where
  port_code : List Char
  city : List Char
  state_code : List Char
  male_population : Int
  female_population : Int
  total_population : Int
  number_of_veterans : Int
  num_foreign_born : Int
deriving DecidableEq

/-- Grouping key of the aggregation: exact (city, state code). -/
def demoKey (r : DemoRow) : List Char × List Char := (r.city, r.state_code)

/-- SUM of one column over the demographics rows of one (city, state code)
group. -/
def sumBy (demo : List DemoRow) (c s : List Char) (f : DemoRow → Int) : Int :=
  ((demo.filter fun r => demoKey r = (c, s)).map f).sum

/-- The aggregated row of one (city, state code) group. -/
def aggRowFor (demo : List DemoRow) (c s : List Char) : AggRow :=
  { city := c
    state_code := s
    male_population := sumBy demo c s fun r => r.male_population
    female_population := sumBy demo c s fun r => r.female_population
    total_population := sumBy demo c s fun r => r.total_population
    number_of_veterans := sumBy demo c s fun r => r.number_of_veterans
    num_foreign_born := sumBy demo c s fun r => r.foreign_born }

/-- The GROUP BY sub-query of `create_city_demographics_dim_table`: one
aggregated row per distinct (city, state code) key. -/
def aggregateDemographics (demo : List DemoRow) : List AggRow :=
  ((demo.map demoKey).dedup).map fun k => aggRowFor demo k.1 k.2

/-- The join condition `lower(cd.city) = lower(sp.city) AND cd.state_code
= sp.state_code`. -/
def joinMatches (p : PortRow) (a : AggRow) : Bool :=
  decide (lowerStr a.city = lowerStr p.city) && decide (a.state_code = p.state_code)

/-- The SELECT clause of the join: the port code attached to the
aggregated columns. -/
def mkCityDemoRow (p : PortRow) (a : AggRow) : CityDemoRow :=
  { port_code := p.port_code
    city := a.city
    state_code := a.state_code
    male_population := a.male_population
    female_population := a.female_population
    total_population := a.total_population
    number_of_veterans := a.number_of_veterans
    num_foreign_born := a.num_foreign_born }

/-- `create_city_demographics_dim_table`: aggregate the demographics by
(city, state code), then inner-join the ports relation on case-insensitive
city equality and exact state-code equality, producing one row per
matching (port row, aggregated row) pair. -/
def create_city_demographics_dim_table (demo : List DemoRow) (ports : List PortRow) :
    List CityDemoRow :=
  ports.flatMap fun p =>
    ((aggregateDemographics demo).filter (joinMatches p)).map (mkCityDemoRow p)

/-- The unique dimension row a combination (city, state code, port code)
can take: the canonical sums of the group attached to the port code. -/
def cityDemoTarget (demo : List DemoRow) (c s pc : List Char) : CityDemoRow :=
  mkCityDemoRow ⟨pc, c, s⟩ (aggRowFor demo c s)

/-- Port rows that the group (c, s) joins with and that carry port code
`pc`. -/
def portMatches (c s pc : List Char) (p : PortRow) : Bool :=
  decide (p.port_code = pc) && decide (lowerStr p.city = lowerStr c) &&
    decide (p.state_code = s)

theorem mem_aggregateDemographics {demo : List DemoRow} {a : AggRow}
    (h : a ∈ aggregateDemographics demo) :
    a = aggRowFor demo a.city a.state_code ∧ (a.city, a.state_code) ∈ demo.map demoKey := by
  unfold aggregateDemographics at h
  obtain ⟨k, hk, hak⟩ := List.mem_map.mp h
  have hc : a.city = k.1 := by rw [← hak]; rfl
  have hs : a.state_code = k.2 := by rw [← hak]; rfl
  constructor
  · rw [hc, hs, hak]
  · rw [hc, hs]
    exact List.mem_dedup.mp hk

theorem countP_flatMap {α β : Type} (l : List α) (f : α → List β) (q : β → Bool) :
    (l.flatMap f).countP q = (l.map fun x => (f x).countP q).sum := by
  induction l with
  | nil => rfl
  | cons a as ih => simp [List.flatMap_cons, List.countP_append, ih]

theorem countP_eq_of_nodup {α : Type} [DecidableEq α] (l : List α) (a : α) (h : l.Nodup) :
    l.countP (fun x => decide (x = a)) = if a ∈ l then 1 else 0 := by
  induction l with
  | nil => simp
  | cons b bs ih =>
    obtain ⟨hnotmem, hnd⟩ := List.nodup_cons.mp h
    rw [List.countP_cons, ih hnd]
    by_cases hab : b = a
    · subst hab
      rw [if_neg hnotmem, if_pos (List.mem_cons_self b bs)]
      simp
    · have h1 : (decide (b = a)) = false := by simp [hab]
      have h2 : (a ∈ b :: bs) ↔ (a ∈ bs) := by
        rw [List.mem_cons]
        constructor
        · rintro (h | h)
          · exact absurd h.symm hab
          · exact h
        · exact Or.inr
      rw [h1]
      simp only [Bool.false_eq_true, if_false, Nat.add_zero]
      exact (if_congr h2 rfl rfl).symm

theorem sum_map_if_and {α : Type} (l : List α) (q : α → Bool) (b : Bool) :
    (l.map fun x => if q x && b then 1 else 0).sum = if b then l.countP q else 0 := by
  induction l with
  | nil => cases b <;> simp
  | cons x xs ih =>
    simp only [List.map_cons, List.sum_cons, ih, List.countP_cons]
    cases b <;> cases hq : q x <;> simp [hq] <;> try omega

theorem inner_count (demo : List DemoRow) (p : PortRow) (c s pc : List Char) :
    (((aggregateDemographics demo).filter (joinMatches p)).map (mkCityDemoRow p)).countP
      (fun x => decide (x = cityDemoTarget demo c s pc)) =
    if portMatches c s pc p && decide ((c, s) ∈ demo.map demoKey) then 1 else 0 := by
  rw [List.countP_map, List.countP_filter]
  unfold aggregateDemographics
  rw [List.countP_map]
  rw [List.countP_congr (q := fun k => portMatches c s pc p && decide (k = (c, s)))]
  · by_cases hb : portMatches c s pc p = true
    · simp only [hb, Bool.true_and]
      rw [countP_eq_of_nodup _ (c, s) (List.nodup_dedup _)]
      by_cases hmem : (c, s) ∈ demo.map demoKey
      · rw [if_pos (List.mem_dedup.mpr hmem), if_pos (by simp [hmem])]
      · rw [if_neg (fun hc => hmem (List.mem_dedup.mp hc)), if_neg (by simp [hmem])]
    · have hb' : portMatches c s pc p = false := by simpa using hb
      simp [hb']
  · intro k _
    simp only [Function.comp, mkCityDemoRow, cityDemoTarget, aggRowFor, joinMatches,
      portMatches, CityDemoRow.mk.injEq, Bool.and_eq_true, decide_eq_true_eq]
    constructor
    · rintro ⟨⟨hpc, hc, hs, -, -, -, -, -⟩, hlow, hst⟩
      have hk : k = (c, s) := Prod.ext hc hs
      subst hk
      exact ⟨⟨⟨hpc, (hc ▸ hlow).symm⟩, (hs ▸ hst).symm⟩, rfl⟩
    · rintro ⟨⟨⟨hpc, hlow⟩, hst⟩, hk⟩
      subst hk
      exact ⟨⟨hpc, rfl, rfl, rfl, rfl, rfl, rfl, rfl⟩, hlow.symm, hst.symm⟩

/-- C5 amended: every row of the city-demographics dimension is the
canonical row of its (city, state code, port code) combination — its five
population values are the sums over all input rows of that exact (city,
state code) group — and belongs to a group present in the demographics
with at least one matching port row (case-insensitive city, exact state
code).  The number of rows carrying a combination (c, s, pc) equals the
number of port rows with code pc matching the group (c, s), when that
group exists, and 0 otherwise; it is exactly one for every combination
present in both relations provided no two distinct port rows share a port
code together with case-insensitively equal cities and equal state
codes. -/
theorem c5_amended_city_demographics (demo : List DemoRow) (ports : List PortRow) :
    (∀ row ∈ create_city_demographics_dim_table demo ports,
      row = cityDemoTarget demo row.city row.state_code row.port_code ∧
      row.male_population = sumBy demo row.city row.state_code (fun r => r.male_population) ∧
      row.female_population = sumBy demo row.city row.state_code (fun r => r.female_population) ∧
      row.total_population = sumBy demo row.city row.state_code (fun r => r.total_population) ∧
      row.number_of_veterans = sumBy demo row.city row.state_code (fun r => r.number_of_veterans) ∧
      row.num_foreign_born = sumBy demo row.city row.state_code (fun r => r.foreign_born) ∧
      (row.city, row.state_code) ∈ demo.map demoKey ∧
      ∃ p ∈ ports, portMatches row.city row.state_code row.port_code p = true) ∧
    (∀ c s pc : List Char,
      (create_city_demographics_dim_table demo ports).countP
          (fun x => decide (x = cityDemoTarget demo c s pc)) =
        if (c, s) ∈ demo.map demoKey then ports.countP (portMatches c s pc) else 0) := by
  constructor
  · intro row hrow
    unfold create_city_demographics_dim_table at hrow
    obtain ⟨p, hp, hrow⟩ := List.mem_flatMap.mp hrow
    obtain ⟨a, ha, hmk⟩ := List.mem_map.mp hrow
    have hjm := List.of_mem_filter ha
    have hagg := List.mem_of_mem_filter ha
    obtain ⟨harow, hkey⟩ := mem_aggregateDemographics hagg
    have hcity : row.city = a.city := by rw [← hmk]; rfl
    have hstate : row.state_code = a.state_code := by rw [← hmk]; rfl
    have hport : row.port_code = p.port_code := by rw [← hmk]; rfl
    have htarget : row = cityDemoTarget demo row.city row.state_code row.port_code := by
      rw [← hmk]
      show mkCityDemoRow p a = cityDemoTarget demo a.city a.state_code p.port_code
      unfold cityDemoTarget
      rw [← harow]
      rfl
    refine ⟨htarget, ?_, ?_, ?_, ?_, ?_, ?_, ?_⟩
    · rw [htarget]; rfl
    · rw [htarget]; rfl
    · rw [htarget]; rfl
    · rw [htarget]; rfl
    · rw [htarget]; rfl
    · rw [hcity, hstate]; exact hkey
    · refine ⟨p, hp, ?_⟩
      simp only [joinMatches, Bool.and_eq_true, decide_eq_true_eq] at hjm
      simp [portMatches, hcity, hstate, hport, hjm.1.symm, hjm.2.symm]
  · intro c s pc
    unfold create_city_demographics_dim_table
    rw [countP_flatMap]
    rw [List.map_congr_left fun p _ => inner_count demo p c s pc]
    rw [sum_map_if_and]
    by_cases hmem : (c, s) ∈ demo.map demoKey
    · rw [if_pos hmem, if_pos (by simp [hmem])]
    · rw [if_neg hmem, if_neg (by simp [hmem])]

/-- One-row demographics relation for the C5 counterexample and witness. -/
def demoAtlanta : List DemoRow :=
  [⟨"Atlanta".data, "Georgia".data, 0, 1, 2, 3, 4, 5, 0, "GA".data, "White".data, 6⟩]

/-- Raw ports relation whose cleaned form has two distinct rows with the
same port code, case-variant city names and the same state code. -/
def rawPortsAtl : List RawPortRow :=
  [⟨"ATL".data, some "Atlanta, GA".data⟩, ⟨"ATL".data, some "ATLANTA, GA".data⟩]

/-- C5 counterexample: with the cleaned ports relation derived from
`rawPortsAtl`, the combination (Atlanta, GA, ATL) is present in both
inputs yet appears twice in the dimension (both port rows join the same
aggregated group case-insensitively), so the dimension does not have
exactly one row per combination. -/
theorem c5_counterexample_duplicate_combination :
    clean_ports_data rawPortsAtl =
      [⟨"ATL".data, "Atlanta".data, "GA".data⟩, ⟨"ATL".data, "ATLANTA".data, "GA".data⟩] ∧
    ("Atlanta".data, "GA".data) ∈ demoAtlanta.map demoKey ∧
    (create_city_demographics_dim_table demoAtlanta (clean_ports_data rawPortsAtl)).countP
        (fun x => decide (x = cityDemoTarget demoAtlanta "Atlanta".data "GA".data "ATL".data)) =
      2 := by
  decide

/-- Witness for the amended C5 at concrete inputs with a single port row:
the canonical sums and the count equation hold, the count being one. -/
theorem c5_amended_city_demographics_witness :
    (cityDemoTarget demoAtlanta "Atlanta".data "GA".data "ATL".data).total_population =
      sumBy demoAtlanta "Atlanta".data "GA".data (fun r => r.total_population) ∧
    (create_city_demographics_dim_table demoAtlanta
        [⟨"ATL".data, "Atlanta".data, "GA".data⟩]).countP
        (fun x => decide (x = cityDemoTarget demoAtlanta "Atlanta".data "GA".data "ATL".data)) =
      if ("Atlanta".data, "GA".data) ∈ demoAtlanta.map demoKey then
        ([⟨"ATL".data, "Atlanta".data, "GA".data⟩] : List PortRow).countP
          (portMatches "Atlanta".data "GA".data "ATL".data)
      else 0 := by
  have h := c5_amended_city_demographics demoAtlanta [⟨"ATL".data, "Atlanta".data, "GA".data⟩]
  have h1 := h.1 (cityDemoTarget demoAtlanta "Atlanta".data "GA".data "ATL".data) (by decide)
  exact ⟨h1.2.2.2.1, h.2 "Atlanta".data "GA".data "ATL".data⟩

theorem strIndex_eq_none (s pat : List Char) (h : ∀ i, ¬ pat <+: s.drop i) :
    strIndex s pat = none := by
  induction s with
  | nil =>
    have h0 : ¬ pat <+: ([] : List Char) := by simpa using h 0
    unfold strIndex
    rw [if_neg fun hpre => h0 (List.isPrefixOf_iff_prefix.mp hpre)]
  | cons c rest ih =>
    have h0 : ¬ pat <+: (c :: rest) := by simpa using h 0
    unfold strIndex
    rw [if_neg fun hpre => h0 (List.isPrefixOf_iff_prefix.mp hpre)]
    show Option.map (· + 1) (strIndex rest pat) = none
    rw [ih fun i => by simpa using h (i + 1)]
    rfl

theorem strIndex_eq_some (s pat : List Char) : ∀ (i : Nat), pat <+: s.drop i →
    (∀ j, j < i → ¬ pat <+: s.drop j) → strIndex s pat = some i := by
  induction s with
  | nil =>
    intro i hp hmin
    cases i with
    | zero =>
      have hp' : pat <+: ([] : List Char) := by simpa using hp
      unfold strIndex
      rw [if_pos (List.isPrefixOf_iff_prefix.mpr hp')]
    | succ i' =>
      have h0 : ¬ pat <+: ([] : List Char) := by simpa using hmin 0 (Nat.succ_pos i')
      exact absurd (by simpa using hp) h0
  | cons c rest ih =>
    intro i hp hmin
    cases i with
    | zero =>
      have hp' : pat <+: (c :: rest) := by simpa using hp
      unfold strIndex
      rw [if_pos (List.isPrefixOf_iff_prefix.mpr hp')]
    | succ i' =>
      have h0 : ¬ pat <+: (c :: rest) := by simpa using hmin 0 (Nat.succ_pos i')
      unfold strIndex
      rw [if_neg fun hpre => h0 (List.isPrefixOf_iff_prefix.mp hpre)]
      show Option.map (· + 1) (strIndex rest pat) = some (i' + 1)
      rw [ih i' (by simpa using hp) fun j hj => by
        simpa using hmin (j + 1) (Nat.succ_lt_succ hj)]
      rfl

/-- Failure modes of the label-document parser: Python `str.index` raises
`ValueError` when the block name is absent (spec: `BlockNotFoundError`) or
when no `;` terminator follows it (spec: `MalformedBlockError`). -/
inductive SasLabelsError where
  | blockNotFound
  | malformedBlock
deriving DecidableEq

/-- Body of the line loop of `get_data_from_sas_labels_file`: split the
line on `=`; exactly two parts give a pair, both parts stripped of
whitespace and then of apostrophes; anything else is skipped. -/
def parseLabelLine (line : List Char) : Option (List Char × List Char) :=
  match pySplit '=' line with
  | [p0, p1] =>
    some (pyStrip (· == quoteChar) (pyStrip pyWhitespace p0),
      pyStrip (· == quoteChar) (pyStrip pyWhitespace p1))
  | _ => none

/-- `get_data_from_sas_labels_file`: slice the document from the first
occurrence of the label name to the next `;`, split into lines, and keep
the code/value pairs in document order. -/
def get_data_from_sas_labels_file (fileData labelName : List Char) :
    Except SasLabelsError (List (List Char × List Char)) :=
  match strIndex fileData labelName with
  | none => .error .blockNotFound
  | some i =>
    match strIndex (fileData.drop i) [';'] with
    | none => .error .malformedBlock
    | some j => .ok ((pySplit '\n' ((fileData.drop i).take j)).filterMap parseLabelLine)

/-- Modelled from the words of C4: a line contributes a pair iff splitting
on `=` yields exactly two parts; both parts are stripped of surrounding
whitespace and enclosing quote characters. -/
def specPairOfLine (line : List Char) : Option (List Char × List Char) :=
  let parts := pySplit '=' line
  if parts.length = 2 then
    some (pyStrip (· == quoteChar) (pyStrip pyWhitespace parts.headI),
      pyStrip (· == quoteChar) (pyStrip pyWhitespace (parts.getD 1 [])))
  else none

theorem parseLabelLine_eq_spec (line : List Char) :
    parseLabelLine line = specPairOfLine line := by
  unfold parseLabelLine specPairOfLine
  cases hps : pySplit '=' line with
  | nil => exact absurd hps (pySplit_ne_nil '=' line)
  | cons p0 t =>
    cases t with
    | nil => simp
    | cons p1 t2 =>
      cases t2 with
      | nil => simp
      | cons p2 t3 => simp [List.length_cons]

/-- C4: the label parser fails with `BlockNotFoundError` when the block
name does not occur in the document; when the name first occurs at
position `i`, the parser fails with `MalformedBlockError` if no `;`
occurs at or after `i`, and otherwise, with `j` the first `;` position at
or after `i`, returns in document order the pairs of the block text from
`i` up to `j`: one pair per line splitting on `=` into exactly two parts,
both parts stripped of surrounding whitespace and enclosing quote
characters, all other lines silently skipped. -/
theorem c4_label_block_extraction (fileData labelName : List Char) :
    ((∀ i, ¬ labelName <+: fileData.drop i) →
      get_data_from_sas_labels_file fileData labelName = .error .blockNotFound) ∧
    (∀ i, labelName <+: fileData.drop i → (∀ k, k < i → ¬ labelName <+: fileData.drop k) →
      ((∀ j, i ≤ j → ¬ [';'] <+: fileData.drop j) →
        get_data_from_sas_labels_file fileData labelName = .error .malformedBlock) ∧
      (∀ j, i ≤ j → [';'] <+: fileData.drop j →
        (∀ k, k < j → i ≤ k → ¬ [';'] <+: fileData.drop k) →
        get_data_from_sas_labels_file fileData labelName =
          .ok ((pySplit '\n' ((fileData.drop i).take (j - i))).filterMap specPairOfLine))) := by
  have hreduce : ∀ i : Nat, strIndex fileData labelName = some i →
      get_data_from_sas_labels_file fileData labelName =
        match strIndex (fileData.drop i) [';'] with
        | none => Except.error SasLabelsError.malformedBlock
        | some j =>
          Except.ok ((pySplit '\n' ((fileData.drop i).take j)).filterMap parseLabelLine) := by
    intro i hidx
    unfold get_data_from_sas_labels_file
    rw [hidx]
  constructor
  · intro h
    unfold get_data_from_sas_labels_file
    rw [strIndex_eq_none fileData labelName h]
  · intro i hp hmin
    have hidx : strIndex fileData labelName = some i := strIndex_eq_some fileData labelName i hp hmin
    constructor
    · intro hnosemi
      rw [hreduce i hidx]
      rw [strIndex_eq_none (fileData.drop i) [';'] fun k => by
        rw [List.drop_drop]
        exact hnosemi (i + k) (Nat.le_add_right i k)]
    · intro j hij hsemi hleast
      have hj : strIndex (fileData.drop i) [';'] = some (j - i) := by
        apply strIndex_eq_some
        · rw [List.drop_drop, show i + (j - i) = j from by omega]
          exact hsemi
        · intro k hk
          rw [List.drop_drop]
          exact hleast (i + k) (by omega) (Nat.le_add_right i k)
      rw [hreduce i hidx, hj]
      show Except.ok ((pySplit '\n' ((fileData.drop i).take (j - i))).filterMap parseLabelLine) = _
      congr 1
      exact List.filterMap_congr fun line _ => parseLabelLine_eq_spec line

/-- Document and block name for the C4 witness. -/
def sampleLabelsDoc : List Char := "junk I94MODE\n1 = Air\n2 = Sea\n;\nrest".data

/-- Witness for C4 on `sampleLabelsDoc`: the block name first occurs at
position 5, the next `;` is at position 29, and the parser returns the
two code/value pairs of the block in document order. -/
theorem c4_label_block_extraction_witness :
    get_data_from_sas_labels_file sampleLabelsDoc "I94MODE".data =
      .ok [("1".data, "Air".data), ("2".data, "Sea".data)] := by
  have h := ((c4_label_block_extraction sampleLabelsDoc "I94MODE".data).2 5 (by decide)
    (by decide)).2 29 (by decide) (by decide) (by decide)
  rw [h]
  decide

/-- Exception object as the bare expression `Exception("...")` in `main`
constructs it; `main` never raises it. -/
structure ExceptionObj where
  message : List Char
deriving DecidableEq

/-- One data-quality check of `main`: `if table.count() == 0:
Exception("...")` constructs an exception object when the relation is
empty, but there is no `raise`, so the object is discarded and control
flow is unaffected either way. -/
def qualityCheck (count : Nat) (msg : List Char) : Option ExceptionObj :=
  if count = 0 then some ⟨msg⟩ else none

/-- Outcome of the gate-and-write phase of `main`: either the run aborts
before writing anything, or it completes having written the listed
outputs in order. -/
inductive PipelineOutcome where
  | aborted
  | completed (written : List (List Char))
deriving DecidableEq

/-- The quality-gate and write phase of `main` (the code after the two
builders): the seven checks each construct and discard an exception
object, after which all seven relations are written unconditionally. -/
def mainGateAndWrite (factRows : List FactRow) (cityDemoRows : List CityDemoRow)
    (portRows : List PortRow) (countryRows : List CountryRow) (stateRows : List StateRow)
    (visaRows modeRows : List CodeRow) : PipelineOutcome :=
  let _e1 := qualityCheck factRows.length
    "Invalid dataset. Immigrations fact table is empty.".data
  let _e2 := qualityCheck cityDemoRows.length
    "Invalid dataset. City demographics dim table is empty.".data
  let _e3 := qualityCheck portRows.length "Invalid dataset. Port dim table is empty.".data
  let _e4 := qualityCheck countryRows.length "Invalid dataset. Country dim table is empty.".data
  let _e5 := qualityCheck stateRows.length "Invalid dataset. US State dim table is empty.".data
  let _e6 := qualityCheck visaRows.length
    "Invalid dataset. Visa Category dim table is empty.".data
  let _e7 := qualityCheck modeRows.length
    "Invalid dataset. Travel mode dim table is empty.".data
  .completed ["fact_immigrations.parquet".data, "dim_city_demographics.parquet".data,
    "dim_country.parquet".data, "dim_us_state.parquet".data, "dim_ports.parquet".data,
    "dim_travel_mode.parquet".data, "dim_visa_category.parquet".data]

/-- C1 (code bug): at the failing input where all seven output relations
are empty, the quality gate does not abort — the check for the empty fact
table merely constructs an exception object that is then discarded — and
the run proceeds to write all seven relations.  The claim (and the spec's
stated intent in its error-handling section) requires a fatal abort
before any write. -/
theorem c1_gate_never_aborts :
    mainGateAndWrite [] [] [] [] [] [] [] ≠ PipelineOutcome.aborted ∧
    mainGateAndWrite [] [] [] [] [] [] [] =
      PipelineOutcome.completed ["fact_immigrations.parquet".data,
        "dim_city_demographics.parquet".data, "dim_country.parquet".data,
        "dim_us_state.parquet".data, "dim_ports.parquet".data,
        "dim_travel_mode.parquet".data, "dim_visa_category.parquet".data] ∧
    qualityCheck (List.length ([] : List FactRow))
        "Invalid dataset. Immigrations fact table is empty.".data =
      some ⟨"Invalid dataset. Immigrations fact table is empty.".data⟩ := by
  refine ⟨fun h => ?_, rfl, rfl⟩
  cases h

end Etl
